import Mathlib

/-!
Verification of the problem-specific branch-and-price plugins for the capacitated
p-median problem (CPMP): the variable pricer (pricer_cpmp.c), the semiassignment
branching rule (branch_semiassign.c), the semiassignment constraint handler
(cons_semiassign.c) and the problem/variable data (probdata.c, vardata.c).

The development is a shallow embedding: SCIP_Real becomes ℚ, SCIP_Longint becomes
ℤ, SCIP_Bool becomes Bool, the pricer restriction matrix and the master variable
array become functions out of ℕ, and the numeric comparison macros of the engine
(SCIPisFeasIntegral, SCIPisFeasZero, SCIPisFeasLT, SCIPisFeasPositive) are embedded
with the default feasibility tolerance as explicit rational predicates.
-/

/-- Feasibility tolerance of the solving engine (default SCIPfeastol, 1e-6). -/
def feastol : ℚ := 1 / 1000000

/-- Value returned by SCIPinfinity (default 1e20). -/
def scipInfinity : ℚ := 10 ^ 20

/-- Embeds SCIPisFeasIntegral, i.e. EPSISINT(x, feastol): x - floor(x + feastol) <= feastol. -/
def isFeasIntegral (x : ℚ) : Prop := x - ⌊x + feastol⌋ ≤ feastol

/-- Embeds SCIPisFeasZero, i.e. EPSZ(x, feastol): |x| <= feastol. -/
def isFeasZero (x : ℚ) : Prop := |x| ≤ feastol

/-- Embeds SCIPisFeasLT, i.e. EPSLT(x, y, feastol): x - y < -feastol. -/
def isFeasLT (x y : ℚ) : Prop := x - y < -feastol

/-- Embeds SCIPisFeasPositive, i.e. EPSP(x, feastol): x > feastol. -/
def isFeasPositive (x : ℚ) : Prop := feastol < x

instance : DecidablePred isFeasIntegral := fun x => by unfold isFeasIntegral; infer_instance

instance : DecidablePred isFeasZero := fun x => by unfold isFeasZero; infer_instance

instance : ∀ x y, Decidable (isFeasLT x y) := fun x y => by unfold isFeasLT; infer_instance

instance : DecidablePred isFeasPositive := fun x => by unfold isFeasPositive; infer_instance

/-- Embeds SCIPpricerCpmpForbidAssignments (pricer_cpmp.c): for every median below
nlocations whose mask bit is set, mark the pair (median, location) forbidden in the
restriction matrix. -/
def SCIPpricerCpmpForbidAssignments (nlocations loc : ℕ) (mask : ℕ → Bool)
    (R : ℕ → ℕ → Bool) : ℕ → ℕ → Bool :=
  fun m l => if m < nlocations ∧ mask m = true ∧ l = loc then true else R m l

/-- Embeds SCIPpricerCpmpAllowAssignments (pricer_cpmp.c): for every median below
nlocations whose mask bit is set, clear the pair (median, location) in the
restriction matrix. -/
def SCIPpricerCpmpAllowAssignments (nlocations loc : ℕ) (mask : ℕ → Bool)
    (R : ℕ → ℕ → Bool) : ℕ → ℕ → Bool :=
  fun m l => if m < nlocations ∧ mask m = true ∧ l = loc then false else R m l

/-- Embeds SCIPpricerCpmpIsAssignmentForbidden (pricer_cpmp.c): read the restriction
matrix entry of the pair (median, location). -/
def SCIPpricerCpmpIsAssignmentForbidden (R : ℕ → ℕ → Bool) (median loc : ℕ) : Bool :=
  R median loc

/-- Embeds a master variable together with its vardata (struct SCIP_VarData of
vardata.c: median and covered locations), its local bounds and its value in the
current LP solution. -/
structure MasterVarData where
  median : ℕ
  locations : List ℕ
  val : ℚ
  lb : ℚ
  ub : ℚ

/-- Embeds SCIPisLocationInCluster (vardata.c): scan the location list of the
variable for the given location. -/
def SCIPisLocationInCluster (v : MasterVarData) (location : ℕ) : Bool :=
  v.locations.contains location

/-- Pointwise update of an assignment matrix at one (location, median) entry. -/
def update2 (A : ℕ → ℕ → ℚ) (i j : ℕ) (q : ℚ) : ℕ → ℕ → ℚ :=
  fun a b => if a = i ∧ b = j then q else A a b

/-- Embeds computeAssignments (branch_semiassign.c): start from the zero matrix and,
for every master variable and every member location of its cluster, add the solution
value of the variable to the entry (member, median). -/
def computeAssignments (vars : List MasterVarData) : ℕ → ℕ → ℚ :=
  vars.foldl
    (fun A v => v.locations.foldl (fun B m => update2 B m v.median (B m v.median + v.val)) A)
    (fun _ _ => 0)

/-- Modelled from the spec: the comparison realised by the external SCIPsortDownRealInt
call in sortMedians (branch_semiassign.c) on (value, median id) pairs: nonincreasing
assignment value, ties broken by ascending original median index. -/
def medOrder (p q : ℚ × ℕ) : Prop := q.1 < p.1 ∨ (p.1 = q.1 ∧ p.2 ≤ q.2)

instance : DecidableRel medOrder := fun p q => by unfold medOrder; infer_instance

instance : IsTotal (ℚ × ℕ) medOrder := ⟨by
  intro a b
  rcases lt_trichotomy a.1 b.1 with h | h | h
  · exact Or.inr (Or.inl h)
  · rcases le_total a.2 b.2 with h2 | h2
    · exact Or.inl (Or.inr ⟨h, h2⟩)
    · exact Or.inr (Or.inr ⟨h.symm, h2⟩)
  · exact Or.inl (Or.inl h)⟩

instance : IsTrans (ℚ × ℕ) medOrder := ⟨by
  intro a b c hab hbc
  rcases hab with h | ⟨he, hi⟩
  · rcases hbc with h2 | ⟨he2, _⟩
    · exact Or.inl (h2.trans h)
    · exact Or.inl (he2 ▸ h)
  · rcases hbc with h2 | ⟨he2, hi2⟩
    · exact Or.inl (he ▸ h2)
    · exact Or.inr ⟨he.trans he2, hi.trans hi2⟩⟩

/-- Pairs the entries of one assignment row with the median indices, starting at i. -/
def enumIdx : List ℚ → ℕ → List (ℚ × ℕ)
  | [], _ => []
  | x :: rest, i => (x, i) :: enumIdx rest (i + 1)

/-- Embeds sortMedians (branch_semiassign.c) for one location row: the row of values,
initially paired with the median ids 0..n-1, sorted in place by nonincreasing value
(SCIPsortDownRealInt permutes the id array alongside the value array). -/
def sortMedians (row : List ℚ) : List (ℚ × ℕ) :=
  List.insertionSort medOrder (enumIdx row 0)

/-- The value component of a sorted row (the state of assignments[i] after sortMedians). -/
def sortedVals (row : List ℚ) : List ℚ := (sortMedians row).map Prod.fst

/-- The id component of a sorted row (the state of sortedids[i] after sortMedians). -/
def sortedIds (row : List ℚ) : List ℕ := (sortMedians row).map Prod.snd

/-- One row of the assignment matrix, as the list of entries for medians 0..n-1. -/
def assignRow (A : ℕ → ℕ → ℚ) (n i : ℕ) : List ℚ :=
  (List.range n).map (A i)

/-- All rows of the assignment matrix after sortMedians ran on every row. -/
def sortedRows (A : ℕ → ℕ → ℚ) (n : ℕ) : List (List ℚ) :=
  (List.range n).map (fun i => sortedVals (assignRow A n i))

/-- Embeds the inner statistics loop of chooseLocation (branch_semiassign.c): walk one
row with its position index, counting the entries that are not feasibly integral,
summing them, and summing those at even positions. -/
def rowStatsLoop : List ℚ → ℕ → ℕ → ℚ → ℚ → ℕ × ℚ × ℚ
  | [], _, nfrac, totfrac, halffrac => (nfrac, totfrac, halffrac)
  | x :: rest, idx, nfrac, totfrac, halffrac =>
    if ¬ isFeasIntegral x then
      rowStatsLoop rest (idx + 1) (nfrac + 1) (totfrac + x)
        (if idx % 2 = 0 then halffrac + x else halffrac)
    else rowStatsLoop rest (idx + 1) nfrac totfrac halffrac

/-- Number of fractionally assigned medians of a row (nfracmedians). -/
def rowNfrac (row : List ℚ) : ℕ := (rowStatsLoop row 0 0 0 0).1

/-- The tie-break quantity ABS(halffrac - 0.5 * totfrac) of a row. -/
def rowFracDiff (row : List ℚ) : ℚ :=
  |(rowStatsLoop row 0 0 0 0).2.2 - (rowStatsLoop row 0 0 0 0).2.1 / 2|

/-- Embeds the outer selection loop of chooseLocation (branch_semiassign.c): scan the
rows in order, keeping the location with the larger fractional count, ties broken by a
feasibly smaller value of ABS(halffrac - 0.5 * totfrac). -/
def chooseLoop : List (List ℚ) → ℕ → ℤ → ℕ → ℚ → ℤ × ℕ × ℚ
  | [], _, loc, maxnfrac, minfracdiff => (loc, maxnfrac, minfracdiff)
  | row :: rest, i, loc, maxnfrac, minfracdiff =>
    if rowNfrac row > maxnfrac ∨
        (rowNfrac row > 0 ∧ rowNfrac row = maxnfrac ∧ isFeasLT (rowFracDiff row) minfracdiff) then
      chooseLoop rest (i + 1) (Int.ofNat i) (rowNfrac row) (rowFracDiff row)
    else chooseLoop rest (i + 1) loc maxnfrac minfracdiff

/-- Embeds chooseLocation (branch_semiassign.c) over the list of rows it receives (in
branchExeclpSemiassign these rows have already been sorted in place by sortMedians):
location starts at -1, maxnfracmedians at 0 and minfracdiff at SCIPinfinity. -/
def chooseLocation (rows : List (List ℚ)) : ℤ :=
  (chooseLoop rows 0 (-1) 0 scipInfinity).1

/-- Embeds the median loop of performBranching (branch_semiassign.c): walk the sorted
median ids with their position counter; medians already forbidden for the location are
skipped (the counter still advances); an unforbidden median is forbidden in the left
child at even positions and in the right child at odd positions. -/
def fillLoop (R : ℕ → ℕ → Bool) (loc : ℕ) :
    List ℕ → ℕ → (ℕ → Bool) → (ℕ → Bool) → (ℕ → Bool) × (ℕ → Bool)
  | [], _, leftforbidden, rightforbidden => (leftforbidden, rightforbidden)
  | m :: rest, i, leftforbidden, rightforbidden =>
    if SCIPpricerCpmpIsAssignmentForbidden R m loc = true then
      fillLoop R loc rest (i + 1) leftforbidden rightforbidden
    else if i % 2 = 1 then
      fillLoop R loc rest (i + 1) (Function.update leftforbidden m false)
        (Function.update rightforbidden m true)
    else
      fillLoop R loc rest (i + 1) (Function.update leftforbidden m true)
        (Function.update rightforbidden m false)

/-- The pair of forbidden arrays computed by performBranching for the chosen location,
starting from the two cleared buffer arrays. -/
def performBranchingArrays (R : ℕ → ℕ → Bool) (loc : ℕ) (ids : List ℕ) :
    (ℕ → Bool) × (ℕ → Bool) :=
  fillLoop R loc ids 0 (fun _ => false) (fun _ => false)

/-- Embeds struct SCIP_ConsData of cons_semiassign.c: the location, the forbidden
median mask, the repropagation flag and the number of variables present the last time
the constraint was propagated. -/
structure SemiConsData where
  location : ℕ
  forbidden : ℕ → Bool
  propagate : Bool
  npropvars : ℕ

/-- Embeds the child-creation part of performBranching (branch_semiassign.c): two child
nodes, each receiving a fresh semiassignment constraint on the chosen location
(SCIPcreateConsSemiassign initialises propagate to TRUE and npropvars to 0). -/
def performBranching (R : ℕ → ℕ → Bool) (loc : ℕ) (ids : List ℕ) : List SemiConsData :=
  [ { location := loc, forbidden := (performBranchingArrays R loc ids).1,
      propagate := true, npropvars := 0 },
    { location := loc, forbidden := (performBranchingArrays R loc ids).2,
      propagate := true, npropvars := 0 } ]

/-- The SCIP result codes used by the embedded callbacks. -/
inductive SResult where
  | didnotrun
  | didnotfind
  | branched
  | cutoff
  | reduceddom
  | success
deriving DecidableEq, Repr

/-- Embeds branchExeclpSemiassign (branch_semiassign.c): compute the assignment matrix,
sort every row in place together with its id array, choose a location; on -1 report
SCIP_DIDNOTFIND with no children, otherwise branch on the location and report
SCIP_BRANCHED with the two children created by performBranching. -/
def branchExeclpSemiassign (vars : List MasterVarData) (n : ℕ) (R : ℕ → ℕ → Bool) :
    SResult × List SemiConsData :=
  if chooseLocation (sortedRows (computeAssignments vars) n) = -1 then
    (SResult.didnotfind, [])
  else
    (SResult.branched,
      performBranching R (chooseLocation (sortedRows (computeAssignments vars) n)).toNat
        (sortedIds (assignRow (computeAssignments vars) n
          (chooseLocation (sortedRows (computeAssignments vars) n)).toNat)))

/-- Embeds the knapsack-preparation block of performPricing (pricer_cpmp.c) exactly as
present in the source: nitems is initialised to 0 and the block that should fill the
item array from the demands and the restriction matrix is absent, so the item list
passed to SCIPsolveKnapsackExactly is empty for every median and restriction state. -/
def pricingKnapsackItems (nlocations : ℕ) (R : ℕ → ℕ → Bool) (median : ℕ) : List ℕ := []

/-- Modelled from the spec: the intended knapsack-preparation block that is missing from
performPricing builds the item list from exactly the locations whose assignment to the
median is not currently forbidden. -/
def pricingKnapsackItemsSpec (nlocations : ℕ) (R : ℕ → ℕ → Bool) (median : ℕ) : List ℕ :=
  (List.range nlocations).filter (fun l => !(SCIPpricerCpmpIsAssignmentForbidden R median l))

/-- A column as registered with the master problem: its vardata, its objective cost and
the constraint rows it was attached to (service rows by location, convexity rows by
median, and the number of times it entered the p-median cardinality row). -/
structure PricedColumn where
  median : ℕ
  locations : List ℕ
  cost : Option ℤ
  serviceRows : List ℕ
  convRows : List ℕ
  cardRows : ℕ
deriving DecidableEq, Repr

/-- Embeds addColumn (pricer_cpmp.c) exactly as present in the source: the block that
should compute the total service cost and the block that should attach the variable to
the service, convexity and p-median constraints are absent, so the created variable
carries no computed cost (the C variable cost is read uninitialised, modelled as none)
and is attached to no constraint row. -/
def addColumn (median : ℕ) (locations : List ℕ) : PricedColumn :=
  { median := median, locations := locations, cost := none,
    serviceRows := [], convRows := [], cardRows := 0 }

/-- Modelled from the spec: the intended addColumn computes cost as the sum of the
distances from each member to the median (distances are SCIP_Longint) and attaches the
column with coefficient 1 to the service row of every member, to the convexity row of
its median, and to the single p-median row. -/
def addColumnSpec (distances : ℕ → ℕ → ℤ) (median : ℕ) (locations : List ℕ) : PricedColumn :=
  { median := median, locations := locations,
    cost := some ((locations.map (fun l => distances l median)).sum),
    serviceRows := locations, convRows := [median], cardRows := 1 }

/-- Embeds SCIPfixVar(scip, var, 0.0, and infeasible, fixed) on a master variable:
fixing to 0 is infeasible when 0 lies feasibly outside the current local bounds;
otherwise both local bounds become 0. -/
def fixVarZero (v : MasterVarData) : MasterVarData × Bool :=
  if isFeasPositive v.lb ∨ isFeasLT v.ub 0 then (v, true)
  else ({ v with lb := 0, ub := 0 }, false)

/-- Embeds the variable scan of consPropSemiassign (cons_semiassign.c) for one
constraint: walk the variables from index i for cnt steps; a variable whose local upper
bound is not feasibly zero, whose median is forbidden by the constraint and whose
cluster contains the location of the constraint is fixed to 0; an infeasible fixing
stops the scan at the current index with SCIP_CUTOFF, a successful fixing records
SCIP_REDUCEDDOM. Returns the variable array, the final index i (stored into npropvars)
and the result. -/
def propScan (loc : ℕ) (forb : ℕ → Bool) :
    ℕ → (ℕ → MasterVarData) → ℕ → SResult → (ℕ → MasterVarData) × ℕ × SResult
  | 0, vars, i, result => (vars, i, result)
  | cnt + 1, vars, i, result =>
    if ¬ isFeasZero (vars i).ub ∧ forb (vars i).median = true ∧
        SCIPisLocationInCluster (vars i) loc = true then
      if (fixVarZero (vars i)).2 = true then (vars, i, SResult.cutoff)
      else propScan loc forb cnt (Function.update vars i (fixVarZero (vars i)).1) (i + 1)
        SResult.reduceddom
    else propScan loc forb cnt vars (i + 1) result

/-- Embeds consPropSemiassign (cons_semiassign.c) for one semiassignment constraint:
when the propagate flag is set, scan the variables from npropvars to nvars - 1, then
clear the flag and store the final scan index into npropvars; otherwise do nothing and
leave the result at SCIP_DIDNOTFIND. -/
def consPropSemiassign (nvars : ℕ) (vars : ℕ → MasterVarData) (cd : SemiConsData) :
    (ℕ → MasterVarData) × SemiConsData × SResult :=
  if cd.propagate = true then
    let out := propScan cd.location cd.forbidden (nvars - cd.npropvars) vars cd.npropvars
      SResult.didnotfind
    (out.1, { cd with propagate := false, npropvars := out.2.1 }, out.2.2)
  else (vars, cd, SResult.didnotfind)

/-- Embeds consActiveSemiassign (cons_semiassign.c): push the forbidden medians of the
constraint into the pricer restriction state and, when variables were created since the
last propagation (npropvars < nvars), set the repropagation flag; the npropvars mark is
never reset on activation. -/
def consActiveSemiassign (nlocations nvars : ℕ) (R : ℕ → ℕ → Bool) (cd : SemiConsData) :
    (ℕ → ℕ → Bool) × SemiConsData :=
  (SCIPpricerCpmpForbidAssignments nlocations cd.location cd.forbidden R,
   if cd.npropvars < nvars then { cd with propagate := true } else cd)

/-- Stated from the claim: the number of medians with fractional assignment value to
location i, read off the unsorted assignment matrix. -/
def claimNfrac (A : ℕ → ℕ → ℚ) (n i : ℕ) : ℕ :=
  ((List.range n).filter (fun j => decide (¬ isFeasIntegral (A i j)))).length

/-- Stated from the claim: the sum of the fractional assignment values of location i. -/
def claimTotfrac (A : ℕ → ℕ → ℚ) (n i : ℕ) : ℚ :=
  (((List.range n).filter (fun j => decide (¬ isFeasIntegral (A i j)))).map (A i)).sum

/-- Stated from the claim: the sum of A i j over even-indexed medians j among the
fractional ones, with j the original median index. -/
def claimHalffrac (A : ℕ → ℕ → ℚ) (n i : ℕ) : ℚ :=
  (((List.range n).filter
      (fun j => decide (¬ isFeasIntegral (A i j)) && decide (j % 2 = 0))).map (A i)).sum

/-- Stated from the claim: the tie-break quantity built from claimHalffrac and
claimTotfrac. -/
def claimFracDiff (A : ℕ → ℕ → ℚ) (n i : ℕ) : ℚ :=
  |claimHalffrac A n i - claimTotfrac A n i / 2|

/-- Stated from the claim: walk the remaining candidate medians (already in sorted
order, already-forbidden ones removed) and forbid them alternately by their rank among
the remaining candidates: first remaining in the left child, second in the right child,
and so on. -/
def claimAlternate : List ℕ → ℕ → (ℕ → Bool) → (ℕ → Bool) → (ℕ → Bool) × (ℕ → Bool)
  | [], _, leftforbidden, rightforbidden => (leftforbidden, rightforbidden)
  | m :: rest, k, leftforbidden, rightforbidden =>
    if k % 2 = 0 then
      claimAlternate rest (k + 1) (Function.update leftforbidden m true) rightforbidden
    else
      claimAlternate rest (k + 1) leftforbidden (Function.update rightforbidden m true)

/-- Stated from the claim: the two forbidden arrays that the claim asserts for a
branching step on the given sorted median ids. -/
def claimFill (R : ℕ → ℕ → Bool) (loc : ℕ) (ids : List ℕ) : (ℕ → Bool) × (ℕ → Bool) :=
  claimAlternate (ids.filter (fun m => !(SCIPpricerCpmpIsAssignmentForbidden R m loc))) 0
    (fun _ => false) (fun _ => false)

/-- The assertion of performBranching (branch_semiassign.c, median loop) over all
entries of the chosen sorted row: every assignment value is not feasibly integral or is
feasibly zero. -/
def branchAssertHolds (row : List ℚ) : Prop :=
  ∀ x ∈ row, ¬ isFeasIntegral x ∨ isFeasZero x

instance : DecidablePred branchAssertHolds := fun row => by
  unfold branchAssertHolds; infer_instance

/-- Default constraint data used only as the getD fallback in concrete statements. -/
def cdDefault : SemiConsData := ⟨0, fun _ => false, false, 0⟩

/-- Concrete restriction state with exactly the pair (median 0, location 0) forbidden. -/
def RC6 : ℕ → ℕ → Bool := fun m l => decide (m = 0 ∧ l = 0)

/-- Concrete assignment matrix for the location-selection analysis: rows
(1/10, 3/10, 1/2), (1/5, 1/2, 3/10) and (0, 0, 0). -/
def A4mat : ℕ → ℕ → ℚ :=
  fun i j => (([[1/10, 3/10, 1/2], [1/5, 1/2, 3/10], [0, 0, 0]].getD i []).getD j 0)

/-- Concrete sorted-row list whose first row carries an integral nonzero entry next to
two fractional ones (total assignment mass 2, as the coverage rows permit). -/
def rowsC10 : List (List ℚ) := [[1, 1/2, 1/2], [0, 0, 0], [0, 0, 0]]

/-- Concrete sorted-row list whose first row is purely fractional with mass 1. -/
def rowsC10w : List (List ℚ) := [[1/2, 1/2, 0], [0, 0, 0], [0, 0, 0]]

/-- Concrete master variable list: one column with median 0 covering location 0 at
LP value 1/2. -/
def varsC3 : List MasterVarData := [⟨0, [0], 1/2, 0, 1⟩]

/-- Concrete restriction state with exactly the pair (median 1, location 0) forbidden. -/
def RC3 : ℕ → ℕ → Bool := fun m l => decide (m = 1 ∧ l = 0)

/-- Concrete master variable list with two columns of median 0 covering location 0. -/
def varsC8 : List MasterVarData := [⟨0, [0, 1], 1/2, 0, 1⟩, ⟨0, [0], 1/3, 0, 1⟩]

/-- Concrete master variable array for the propagation scenario. -/
def varsC5 : ℕ → MasterVarData := fun _ => ⟨0, [0], 0, 0, 1⟩

/-- Concrete semiassignment constraint forbidding median 0 for location 0. -/
def cdC5 : SemiConsData := ⟨0, fun m => decide (m = 0), true, 0⟩

/-- Claim C6 counterexample: for the restriction state in which (median 0, location 0)
is already forbidden and a mask containing median 0, calling allowAssignments after
forbidAssignments for location 0 does not restore the pre-forbid value: the pair ends
up allowed although it was forbidden before the round trip. -/
theorem C6_counterexample :
    SCIPpricerCpmpIsAssignmentForbidden RC6 0 0 = true ∧
    (fun _ : ℕ => true) 0 = true ∧
    SCIPpricerCpmpIsAssignmentForbidden
      (SCIPpricerCpmpAllowAssignments 1 0 (fun _ => true)
        (SCIPpricerCpmpForbidAssignments 1 0 (fun _ => true) RC6)) 0 0 = false := by
  decide

/-- Claim C6 (amended): allowAssignments after forbidAssignments with the same location
and mask restores isAssignmentForbidden for every pair that was not forbidden before
the round trip (in particular for every masked median that was unforbidden), and leaves
every pair outside the masked (median, location) set untouched; a masked pair that was
already forbidden before ends up allowed instead. Moreover forbidding an
already-forbidden pair and releasing a never-forbidden pair leave that entry unchanged
(defensive no-ops). -/
theorem C6_restriction_roundtrip (n loc : ℕ) (mask : ℕ → Bool) (R : ℕ → ℕ → Bool) :
    (∀ m l, R m l = false →
      SCIPpricerCpmpIsAssignmentForbidden
        (SCIPpricerCpmpAllowAssignments n loc mask
          (SCIPpricerCpmpForbidAssignments n loc mask R)) m l
        = SCIPpricerCpmpIsAssignmentForbidden R m l) ∧
    (∀ m l, ¬ (m < n ∧ mask m = true ∧ l = loc) →
      SCIPpricerCpmpIsAssignmentForbidden
        (SCIPpricerCpmpAllowAssignments n loc mask
          (SCIPpricerCpmpForbidAssignments n loc mask R)) m l
        = SCIPpricerCpmpIsAssignmentForbidden R m l) ∧
    (∀ m l, R m l = true →
      SCIPpricerCpmpForbidAssignments n loc mask R m l = R m l) ∧
    (∀ m l, R m l = false →
      SCIPpricerCpmpAllowAssignments n loc mask R m l = R m l) := by
  refine ⟨?_, ?_, ?_, ?_⟩
  · intro m l h
    unfold SCIPpricerCpmpIsAssignmentForbidden SCIPpricerCpmpAllowAssignments
      SCIPpricerCpmpForbidAssignments
    by_cases hc : m < n ∧ mask m = true ∧ l = loc
    · obtain ⟨h1, h2, rfl⟩ := hc
      simp [h1, h2, h]
    · simp [hc]
  · intro m l h
    unfold SCIPpricerCpmpIsAssignmentForbidden SCIPpricerCpmpAllowAssignments
      SCIPpricerCpmpForbidAssignments
    simp [h]
  · intro m l h
    unfold SCIPpricerCpmpForbidAssignments
    by_cases hc : m < n ∧ mask m = true ∧ l = loc
    · obtain ⟨h1, h2, rfl⟩ := hc
      simp [h1, h2, h]
    · simp [hc]
  · intro m l h
    unfold SCIPpricerCpmpAllowAssignments
    by_cases hc : m < n ∧ mask m = true ∧ l = loc
    · obtain ⟨h1, h2, rfl⟩ := hc
      simp [h1, h2, h]
    · simp [hc]

/-- Witness for C6_restriction_roundtrip at a concrete input: the never-forbidden pair
(median 1, location 0) is restored by the round trip with a full mask. -/
theorem C6_witness :
    SCIPpricerCpmpIsAssignmentForbidden
      (SCIPpricerCpmpAllowAssignments 2 0 (fun _ => true)
        (SCIPpricerCpmpForbidAssignments 2 0 (fun _ => true) RC6)) 1 0
      = SCIPpricerCpmpIsAssignmentForbidden RC6 1 0 :=
  (C6_restriction_roundtrip 2 0 (fun _ => true) RC6).1 1 0 (by decide)

/-- Claim C1: the source block of performPricing that should build the knapsack item
list is absent, so the item list is empty for every restriction state; with no pair
forbidden the intended item list contains both locations, and in the scenario where
median 0 is forbidden for location 1 and then re-allowed the intended item list drops
and regains location 1, while the built item list never contains the eligible
location 0 at all. -/
theorem C1_pricing_item_list :
    pricingKnapsackItems 2 (fun _ _ => false) 0 = [] ∧
    pricingKnapsackItemsSpec 2 (fun _ _ => false) 0 = [0, 1] ∧
    (0 ∈ pricingKnapsackItemsSpec 2 (fun _ _ => false) 0 ∧
      0 ∉ pricingKnapsackItems 2 (fun _ _ => false) 0) ∧
    pricingKnapsackItemsSpec 2
      (SCIPpricerCpmpForbidAssignments 2 1 (fun m => decide (m = 0)) (fun _ _ => false)) 0
      = [0] ∧
    pricingKnapsackItemsSpec 2
      (SCIPpricerCpmpAllowAssignments 2 1 (fun m => decide (m = 0))
        (SCIPpricerCpmpForbidAssignments 2 1 (fun m => decide (m = 0)) (fun _ _ => false))) 0
      = [0, 1] ∧
    pricingKnapsackItems 2
      (SCIPpricerCpmpForbidAssignments 2 1 (fun m => decide (m = 0)) (fun _ _ => false)) 0
      = [] := by
  decide

/-- Claim C7: the source blocks of addColumn that should compute the service cost and
attach the column to its service rows, its convexity row and the p-median row are
absent, so a column with one member is attached to 0 service rows instead of 1, to no
convexity row and not to the cardinality row, and carries no computed cost, while the
intended column carries cost 3 and the full attachment. -/
theorem C7_addColumn_attachment :
    (addColumn 0 [0]).cost = none ∧
    (addColumn 0 [0]).serviceRows.length = 0 ∧
    (addColumn 0 [0]).convRows = [] ∧
    (addColumn 0 [0]).cardRows = 0 ∧
    ([0] : List ℕ).length = 1 ∧
    (addColumnSpec (fun _ _ => 3) 0 [0]).cost = some 3 ∧
    (addColumnSpec (fun _ _ => 3) 0 [0]).serviceRows.length = 1 ∧
    (addColumnSpec (fun _ _ => 3) 0 [0]).convRows = [0] ∧
    (addColumnSpec (fun _ _ => 3) 0 [0]).cardRows = 1 := by
  decide

lemma foldl_update2_members (med : ℕ) (q : ℚ) :
    ∀ (ms : List ℕ) (A : ℕ → ℕ → ℚ) (i j : ℕ), ms.Nodup →
      (ms.foldl (fun B m => update2 B m med (B m med + q)) A) i j
        = A i j + (if med = j ∧ i ∈ ms then q else 0) := by
  intro ms
  induction ms with
  | nil => intro A i j _; simp
  | cons m rest ih =>
    intro A i j hnd
    rw [List.foldl_cons, ih _ i j hnd.of_cons]
    by_cases hj : med = j
    · subst hj
      by_cases him : i = m
      · subst him
        have : i ∉ rest := (List.nodup_cons.mp hnd).1
        simp [update2, this]
      · by_cases hr : i ∈ rest
        · simp [update2, him, hr]
        · simp [update2, him, hr]
    · have hjm : ¬ (i = m ∧ j = med) := fun hcon => hj hcon.2.symm
      simp [update2, hjm, hj]

lemma computeAssignments_foldl :
    ∀ (vs : List MasterVarData) (A : ℕ → ℕ → ℚ) (i j : ℕ),
      (∀ v ∈ vs, v.locations.Nodup) →
      (vs.foldl
          (fun A v => v.locations.foldl
            (fun B m => update2 B m v.median (B m v.median + v.val)) A) A) i j
        = A i j +
          ((vs.filter (fun v => decide (v.median = j ∧ i ∈ v.locations))).map
            (fun v => v.val)).sum := by
  intro vs
  induction vs with
  | nil => intro A i j _; simp
  | cons v rest ih =>
    intro A i j h
    rw [List.foldl_cons, ih _ i j (fun w hw => h w (List.mem_cons_of_mem v hw))]
    rw [foldl_update2_members v.median v.val v.locations A i j (h v (List.mem_cons_self v rest))]
    by_cases hc : v.median = j ∧ i ∈ v.locations
    · simp only [List.filter_cons, hc, decide_eq_true_eq, if_pos, List.map_cons, List.sum_cons]
      simp [hc]
      ring
    · simp only [List.filter_cons]
      simp [hc]

/-- Claim C8: computeAssignments produces, for every location i and median j, the sum
of the current solution values of all master variables whose median is j and whose
member list contains i (0 when no such variable exists), provided every variable lists
each member once. -/
theorem C8_computeAssignments (vars : List MasterVarData)
    (h : ∀ v ∈ vars, v.locations.Nodup) (i j : ℕ) :
    computeAssignments vars i j
      = ((vars.filter (fun v => decide (v.median = j ∧ i ∈ v.locations))).map
          (fun v => v.val)).sum := by
  have := computeAssignments_foldl vars (fun _ _ => 0) i j h
  simpa [computeAssignments] using this

/-- Witness for C8_computeAssignments: two columns with median 0 covering location 0
at values 1/2 and 1/3; the nodup hypothesis holds and the entry (0, 0) is their sum. -/
theorem C8_witness :
    (∀ v ∈ varsC8, v.locations.Nodup) ∧
    computeAssignments varsC8 0 0
      = ((varsC8.filter (fun v => decide (v.median = 0 ∧ 0 ∈ v.locations))).map
          (fun v => v.val)).sum :=
  ⟨by decide, C8_computeAssignments varsC8 (by decide) 0 0⟩

/-- A master variable is hit by a semiassignment restriction when its median is in the
forbidden mask and its cluster contains the restricted location. -/
def violatesRestriction (forb : ℕ → Bool) (loc : ℕ) (v : MasterVarData) : Prop :=
  forb v.median = true ∧ SCIPisLocationInCluster v loc = true

lemma isFeasZero_zero : isFeasZero 0 := by
  unfold isFeasZero feastol
  norm_num

lemma propScan_frame (loc : ℕ) (forb : ℕ → Bool) :
    ∀ (cnt : ℕ) (vars : ℕ → MasterVarData) (i : ℕ) (r : SResult) (k : ℕ), k < i →
      (propScan loc forb cnt vars i r).1 k = vars k := by
  intro cnt
  induction cnt with
  | zero => intro vars i r k _; rfl
  | succ n ih =>
    intro vars i r k hk
    unfold propScan
    by_cases hc : ¬ isFeasZero (vars i).ub ∧ forb (vars i).median = true ∧
        SCIPisLocationInCluster (vars i) loc = true
    · rw [if_pos hc]
      by_cases hfix : (fixVarZero (vars i)).2 = true
      · rw [if_pos hfix]
      · rw [if_neg hfix]
        rw [ih _ (i + 1) _ k (Nat.lt_succ_of_lt hk)]
        exact Function.update_noteq (Nat.ne_of_lt hk) _ vars
    · rw [if_neg hc]
      exact ih _ (i + 1) _ k (Nat.lt_succ_of_lt hk)

lemma propScan_mark (loc : ℕ) (forb : ℕ → Bool) :
    ∀ (cnt : ℕ) (vars : ℕ → MasterVarData) (i : ℕ) (r : SResult),
      i ≤ (propScan loc forb cnt vars i r).2.1 := by
  intro cnt
  induction cnt with
  | zero => intro vars i r; exact le_refl i
  | succ n ih =>
    intro vars i r
    unfold propScan
    by_cases hc : ¬ isFeasZero (vars i).ub ∧ forb (vars i).median = true ∧
        SCIPisLocationInCluster (vars i) loc = true
    · rw [if_pos hc]
      by_cases hfix : (fixVarZero (vars i)).2 = true
      · rw [if_pos hfix]
      · rw [if_neg hfix]
        exact (Nat.le_succ i).trans (ih _ (i + 1) _)
    · rw [if_neg hc]
      exact (Nat.le_succ i).trans (ih _ (i + 1) _)

lemma fixVarZero_ub (v : MasterVarData) (h : ¬ (fixVarZero v).2 = true) :
    ((fixVarZero v).1).ub = 0 := by
  unfold fixVarZero at *
  by_cases hc : isFeasPositive v.lb ∨ isFeasLT v.ub 0
  · simp [hc] at h
  · simp [hc]

lemma propScan_inv (loc : ℕ) (forb : ℕ → Bool) :
    ∀ (cnt : ℕ) (vars : ℕ → MasterVarData) (i : ℕ) (r : SResult),
      (∀ k, k < i → violatesRestriction forb loc (vars k) → isFeasZero ((vars k).ub)) →
      (propScan loc forb cnt vars i r).2.2 = SResult.cutoff ∨
      ∀ k, k < (propScan loc forb cnt vars i r).2.1 →
        violatesRestriction forb loc ((propScan loc forb cnt vars i r).1 k) →
        isFeasZero (((propScan loc forb cnt vars i r).1 k).ub) := by
  intro cnt
  induction cnt with
  | zero => intro vars i r hpre; exact Or.inr hpre
  | succ n ih =>
    intro vars i r hpre
    unfold propScan
    by_cases hc : ¬ isFeasZero (vars i).ub ∧ forb (vars i).median = true ∧
        SCIPisLocationInCluster (vars i) loc = true
    · rw [if_pos hc]
      by_cases hfix : (fixVarZero (vars i)).2 = true
      · rw [if_pos hfix]
        exact Or.inl rfl
      · rw [if_neg hfix]
        apply ih
        intro k hk hviol
        rcases Nat.lt_succ_iff_lt_or_eq.mp hk with hlt | heq
        · rw [Function.update_noteq (Nat.ne_of_lt hlt)] at hviol ⊢
          exact hpre k hlt hviol
        · subst heq
          rw [Function.update_same]
          rw [fixVarZero_ub (vars k) hfix]
          exact isFeasZero_zero
    · rw [if_neg hc]
      apply ih
      intro k hk hviol
      rcases Nat.lt_succ_iff_lt_or_eq.mp hk with hlt | heq
      · exact hpre k hlt hviol
      · subst heq
        push_neg at hc
        by_contra hnz
        exact hc hnz hviol.1 hviol.2

/-- Claim C5: after consPropSemiassign runs on a constraint whose already-scanned
prefix satisfies the fixing invariant, the scan mark never decreases, the variables
below the old mark are untouched (the pass examines only indices at or above the mark
recorded by the previous pass), and either a cutoff is reported or every variable below
the new mark whose median is forbidden by the constraint and whose cluster contains the
location of the constraint has a feasibly-zero upper bound; moreover activation
(consActiveSemiassign) never resets the mark, so a re-activation never re-scans the
full variable set. -/
theorem C5_propagation (nvars : ℕ) (vars : ℕ → MasterVarData) (cd : SemiConsData)
    (hpre : ∀ k, k < cd.npropvars →
      violatesRestriction cd.forbidden cd.location (vars k) → isFeasZero ((vars k).ub)) :
    cd.npropvars ≤ ((consPropSemiassign nvars vars cd).2.1).npropvars ∧
    (∀ k, k < cd.npropvars → (consPropSemiassign nvars vars cd).1 k = vars k) ∧
    ((consPropSemiassign nvars vars cd).2.2 = SResult.cutoff ∨
      ∀ k, k < ((consPropSemiassign nvars vars cd).2.1).npropvars →
        violatesRestriction cd.forbidden cd.location ((consPropSemiassign nvars vars cd).1 k) →
        isFeasZero (((consPropSemiassign nvars vars cd).1 k).ub)) ∧
    (∀ (nlocs : ℕ) (R : ℕ → ℕ → Bool),
      ((consActiveSemiassign nlocs nvars R cd).2).npropvars = cd.npropvars) := by
  refine ⟨?_, ?_, ?_, ?_⟩
  · unfold consPropSemiassign
    by_cases hp : cd.propagate = true
    · simp only [hp, ite_true]
      exact propScan_mark cd.location cd.forbidden _ vars cd.npropvars _
    · simp [hp]
  · intro k hk
    unfold consPropSemiassign
    by_cases hp : cd.propagate = true
    · simp only [hp, ite_true]
      exact propScan_frame cd.location cd.forbidden _ vars cd.npropvars _ k hk
    · simp [hp]
  · unfold consPropSemiassign
    by_cases hp : cd.propagate = true
    · simp only [hp, ite_true]
      exact propScan_inv cd.location cd.forbidden _ vars cd.npropvars _ hpre
    · simp only [hp, Bool.false_eq_true, ite_false]
      exact Or.inr hpre
  · intro nlocs R
    unfold consActiveSemiassign
    by_cases ha : cd.npropvars < nvars
    · simp [ha]
    · simp [ha]

/-- Witness for C5_propagation: a single variable, median 0 covering location 0 with
bounds [0, 1], against a fresh constraint forbidding median 0 for location 0 (mark 0,
so the prefix invariant is vacuous); the new mark dominates the old one. -/
theorem C5_witness :
    cdC5.npropvars ≤ ((consPropSemiassign 1 varsC5 cdC5).2.1).npropvars :=
  (C5_propagation 1 varsC5 cdC5 (fun k hk _ => absurd hk (Nat.not_lt_zero k))).1

lemma fillLoop_not_mem (R : ℕ → ℕ → Bool) (loc m : ℕ) :
    ∀ (ids : List ℕ) (i : ℕ) (L0 R0 : ℕ → Bool), m ∉ ids →
      (fillLoop R loc ids i L0 R0).1 m = L0 m ∧ (fillLoop R loc ids i L0 R0).2 m = R0 m := by
  intro ids
  induction ids with
  | nil => intro i L0 R0 _; exact ⟨rfl, rfl⟩
  | cons a rest ih =>
    intro i L0 R0 hm
    have hma : m ≠ a := fun h => hm (h ▸ List.mem_cons_self a rest)
    have hmr : m ∉ rest := fun h => hm (List.mem_cons_of_mem a h)
    unfold fillLoop
    by_cases hf : SCIPpricerCpmpIsAssignmentForbidden R a loc = true
    · rw [if_pos hf]
      exact ih (i + 1) L0 R0 hmr
    · rw [if_neg hf]
      by_cases hi : i % 2 = 1
      · rw [if_pos hi]
        have := ih (i + 1) (Function.update L0 a false) (Function.update R0 a true) hmr
        rw [this.1, this.2, Function.update_noteq hma, Function.update_noteq hma]
        exact ⟨rfl, rfl⟩
      · rw [if_neg hi]
        have := ih (i + 1) (Function.update L0 a true) (Function.update R0 a false) hmr
        rw [this.1, this.2, Function.update_noteq hma, Function.update_noteq hma]
        exact ⟨rfl, rfl⟩

lemma fillLoop_forbidden (R : ℕ → ℕ → Bool) (loc m : ℕ) (hm : R m loc = true) :
    ∀ (ids : List ℕ) (i : ℕ) (L0 R0 : ℕ → Bool),
      (fillLoop R loc ids i L0 R0).1 m = L0 m ∧ (fillLoop R loc ids i L0 R0).2 m = R0 m := by
  intro ids
  induction ids with
  | nil => intro i L0 R0; exact ⟨rfl, rfl⟩
  | cons a rest ih =>
    intro i L0 R0
    unfold fillLoop
    by_cases hf : SCIPpricerCpmpIsAssignmentForbidden R a loc = true
    · rw [if_pos hf]
      exact ih (i + 1) L0 R0
    · rw [if_neg hf]
      have hma : m ≠ a := by
        intro h
        subst h
        exact hf hm
      by_cases hi : i % 2 = 1
      · rw [if_pos hi]
        have := ih (i + 1) (Function.update L0 a false) (Function.update R0 a true)
        rw [this.1, this.2, Function.update_noteq hma, Function.update_noteq hma]
        exact ⟨rfl, rfl⟩
      · rw [if_neg hi]
        have := ih (i + 1) (Function.update L0 a true) (Function.update R0 a false)
        rw [this.1, this.2, Function.update_noteq hma, Function.update_noteq hma]
        exact ⟨rfl, rfl⟩

lemma fillLoop_mem_eligible (R : ℕ → ℕ → Bool) (loc : ℕ) :
    ∀ (ids : List ℕ) (i : ℕ) (L0 R0 : ℕ → Bool) (m : ℕ), ids.Nodup → m ∈ ids →
      R m loc = false →
      ((fillLoop R loc ids i L0 R0).1 m = true ∧ (fillLoop R loc ids i L0 R0).2 m = false) ∨
      ((fillLoop R loc ids i L0 R0).1 m = false ∧ (fillLoop R loc ids i L0 R0).2 m = true) := by
  intro ids
  induction ids with
  | nil => intro i L0 R0 m _ hm; exact absurd hm (List.not_mem_nil m)
  | cons a rest ih =>
    intro i L0 R0 m hnd hm hf
    rcases List.mem_cons.mp hm with heq | hr
    · subst heq
      have hnf : ¬ SCIPpricerCpmpIsAssignmentForbidden R m loc = true := by
        unfold SCIPpricerCpmpIsAssignmentForbidden
        rw [hf]
        exact Bool.false_ne_true
      have hmr : m ∉ rest := (List.nodup_cons.mp hnd).1
      unfold fillLoop
      rw [if_neg hnf]
      by_cases hi : i % 2 = 1
      · rw [if_pos hi]
        have := fillLoop_not_mem R loc m rest (i + 1)
          (Function.update L0 m false) (Function.update R0 m true) hmr
        rw [this.1, this.2, Function.update_same, Function.update_same]
        exact Or.inr ⟨rfl, rfl⟩
      · rw [if_neg hi]
        have := fillLoop_not_mem R loc m rest (i + 1)
          (Function.update L0 m true) (Function.update R0 m false) hmr
        rw [this.1, this.2, Function.update_same, Function.update_same]
        exact Or.inl ⟨rfl, rfl⟩
    · unfold fillLoop
      by_cases hfa : SCIPpricerCpmpIsAssignmentForbidden R a loc = true
      · rw [if_pos hfa]
        exact ih (i + 1) L0 R0 m hnd.of_cons hr hf
      · rw [if_neg hfa]
        by_cases hi : i % 2 = 1
        · rw [if_pos hi]
          exact ih (i + 1) _ _ m hnd.of_cons hr hf
        · rw [if_neg hi]
          exact ih (i + 1) _ _ m hnd.of_cons hr hf

lemma fillLoop_getD (R : ℕ → ℕ → Bool) (loc : ℕ) :
    ∀ (ids : List ℕ) (i : ℕ) (L0 R0 : ℕ → Bool) (k : ℕ), ids.Nodup → k < ids.length →
      R (ids.getD k 0) loc = false →
      (((i + k) % 2 = 0 →
        (fillLoop R loc ids i L0 R0).1 (ids.getD k 0) = true ∧
        (fillLoop R loc ids i L0 R0).2 (ids.getD k 0) = false) ∧
       ((i + k) % 2 = 1 →
        (fillLoop R loc ids i L0 R0).1 (ids.getD k 0) = false ∧
        (fillLoop R loc ids i L0 R0).2 (ids.getD k 0) = true)) := by
  intro ids
  induction ids with
  | nil => intro i L0 R0 k _ hk; exact absurd hk (Nat.not_lt_zero k)
  | cons a rest ih =>
    intro i L0 R0 k hnd hk hf
    cases k with
    | zero =>
      simp only [List.getD_cons_zero] at hf ⊢
      have hnf : ¬ SCIPpricerCpmpIsAssignmentForbidden R a loc = true := by
        unfold SCIPpricerCpmpIsAssignmentForbidden
        rw [hf]
        exact Bool.false_ne_true
      have har : a ∉ rest := (List.nodup_cons.mp hnd).1
      unfold fillLoop
      rw [if_neg hnf]
      by_cases hi : i % 2 = 1
      · rw [if_pos hi]
        have := fillLoop_not_mem R loc a rest (i + 1)
          (Function.update L0 a false) (Function.update R0 a true) har
        rw [this.1, this.2, Function.update_same, Function.update_same]
        constructor
        · intro h0
          rw [Nat.add_zero] at h0
          omega
        · intro _
          exact ⟨rfl, rfl⟩
      · rw [if_neg hi]
        have := fillLoop_not_mem R loc a rest (i + 1)
          (Function.update L0 a true) (Function.update R0 a false) har
        rw [this.1, this.2, Function.update_same, Function.update_same]
        constructor
        · intro _
          exact ⟨rfl, rfl⟩
        · intro h1
          rw [Nat.add_zero] at h1
          omega
    | succ k =>
      simp only [List.getD_cons_succ] at hf ⊢
      have hlen : k < rest.length := by
        simp only [List.length_cons] at hk
        omega
      have he : (i + 1) + k = i + (k + 1) := by omega
      unfold fillLoop
      by_cases hfa : SCIPpricerCpmpIsAssignmentForbidden R a loc = true
      · rw [if_pos hfa]
        have := ih (i + 1) L0 R0 k hnd.of_cons hlen hf
        rw [he] at this
        exact this
      · rw [if_neg hfa]
        by_cases hi : i % 2 = 1
        · rw [if_pos hi]
          have := ih (i + 1) (Function.update L0 a false) (Function.update R0 a true) k
            hnd.of_cons hlen hf
          rw [he] at this
          exact this
        · rw [if_neg hi]
          have := ih (i + 1) (Function.update L0 a true) (Function.update R0 a false) k
            hnd.of_cons hlen hf
          rw [he] at this
          exact this

lemma enumIdx_map_fst : ∀ (xs : List ℚ) (i : ℕ), (enumIdx xs i).map Prod.fst = xs := by
  intro xs
  induction xs with
  | nil => intro i; rfl
  | cons x rest ih =>
    intro i
    simp only [enumIdx, List.map_cons, ih]

lemma enumIdx_map_snd :
    ∀ (xs : List ℚ) (i : ℕ), (enumIdx xs i).map Prod.snd = List.range' i xs.length := by
  intro xs
  induction xs with
  | nil => intro i; rfl
  | cons x rest ih =>
    intro i
    simp only [enumIdx, List.map_cons, ih, List.length_cons, List.range'_succ]

lemma sortedIds_perm (row : List ℚ) : (sortedIds row).Perm (List.range row.length) := by
  have h := (List.perm_insertionSort medOrder (enumIdx row 0)).map Prod.snd
  unfold sortedIds sortMedians
  rw [List.range_eq_range']
  rw [enumIdx_map_snd row 0] at h
  exact h

lemma sortedIds_nodup (row : List ℚ) : (sortedIds row).Nodup :=
  ((sortedIds_perm row).nodup_iff).mpr (List.nodup_range row.length)

lemma sortedIds_length (row : List ℚ) : (sortedIds row).length = row.length := by
  have := (sortedIds_perm row).length_eq
  simpa using this

lemma sortedVals_perm (row : List ℚ) : (sortedVals row).Perm row := by
  have h := (List.perm_insertionSort medOrder (enumIdx row 0)).map Prod.fst
  unfold sortedVals sortMedians
  rw [enumIdx_map_fst row 0] at h
  exact h

/-- Claim C2: a branching step creates exactly two child nodes, and for every median
below n (with the sorted id array a permutation of the medians 0..n-1, as built by
branchExeclpSemiassign) the two forbidden sets are disjoint and their union consists of
exactly the medians that were not already forbidden for the chosen location. -/
theorem C2_branching_partition (R : ℕ → ℕ → Bool) (loc n : ℕ) (ids : List ℕ)
    (hperm : ids.Perm (List.range n)) :
    (performBranching R loc ids).length = 2 ∧
    ∀ m, m < n →
      ¬ ((performBranchingArrays R loc ids).1 m = true ∧
          (performBranchingArrays R loc ids).2 m = true) ∧
      (((performBranchingArrays R loc ids).1 m = true ∨
          (performBranchingArrays R loc ids).2 m = true) ↔ R m loc = false) := by
  constructor
  · rfl
  · intro m hm
    have hnd : ids.Nodup := (hperm.nodup_iff).mpr (List.nodup_range n)
    have hmem : m ∈ ids := hperm.mem_iff.mpr (List.mem_range.mpr hm)
    by_cases hf : R m loc = true
    · have h0 := fillLoop_forbidden R loc m hf ids 0 (fun _ => false) (fun _ => false)
      unfold performBranchingArrays
      rw [h0.1, h0.2]
      constructor
      · intro hcon
        exact Bool.false_ne_true hcon.1
      · constructor
        · intro hcon
          rcases hcon with h | h <;> exact absurd h Bool.false_ne_true
        · intro hcon
          rw [hf] at hcon
          simp at hcon
    · have hf' : R m loc = false := by
        revert hf
        cases R m loc <;> simp
      rcases fillLoop_mem_eligible R loc ids 0 (fun _ => false) (fun _ => false) m hnd hmem hf'
        with ⟨h1, h2⟩ | ⟨h1, h2⟩
      · unfold performBranchingArrays
        rw [h1, h2]
        constructor
        · intro hcon
          exact absurd hcon.2 Bool.false_ne_true
        · simp [hf']
      · unfold performBranchingArrays
        rw [h1, h2]
        constructor
        · intro hcon
          exact absurd hcon.1 Bool.false_ne_true
        · simp [hf']

/-- Witness for C2_branching_partition: two medians in sorted order [1, 0] with nothing
forbidden; two children are created. -/
theorem C2_witness : (performBranching (fun _ _ => false) 0 [1, 0]).length = 2 :=
  (C2_branching_partition (fun _ _ => false) 0 2 [1, 0] (by decide)).1

/-- Claim C3 (amended): for a branching step the medians are ordered by nonincreasing
fractional-assignment value (ties by original median index, as modelled for the
external sort), medians already forbidden for the location are skipped and enter
neither forbidden set, and an unforbidden median is forbidden in the left child or the
right child according to the parity of its position in the full sorted median list,
positions counted including the skipped already-forbidden medians: even position means
left child, odd position means right child. -/
theorem C3_alternation_by_sorted_position (row : List ℚ) (R : ℕ → ℕ → Bool) (loc : ℕ) :
    List.Sorted medOrder (sortMedians row) ∧
    ∀ k, k < (sortedIds row).length →
      (R ((sortedIds row).getD k 0) loc = true →
        (performBranchingArrays R loc (sortedIds row)).1 ((sortedIds row).getD k 0) = false ∧
        (performBranchingArrays R loc (sortedIds row)).2 ((sortedIds row).getD k 0) = false) ∧
      (R ((sortedIds row).getD k 0) loc = false →
        (k % 2 = 0 →
          (performBranchingArrays R loc (sortedIds row)).1 ((sortedIds row).getD k 0) = true ∧
          (performBranchingArrays R loc (sortedIds row)).2 ((sortedIds row).getD k 0) = false) ∧
        (k % 2 = 1 →
          (performBranchingArrays R loc (sortedIds row)).1 ((sortedIds row).getD k 0) = false ∧
          (performBranchingArrays R loc (sortedIds row)).2 ((sortedIds row).getD k 0) = true)) := by
  constructor
  · exact List.sorted_insertionSort medOrder (enumIdx row 0)
  · intro k hk
    constructor
    · intro hf
      have h0 := fillLoop_forbidden R loc ((sortedIds row).getD k 0) hf (sortedIds row) 0
        (fun _ => false) (fun _ => false)
      unfold performBranchingArrays
      rw [h0.1, h0.2]
      exact ⟨rfl, rfl⟩
    · intro hf
      have h0 := fillLoop_getD R loc (sortedIds row) 0 (fun _ => false) (fun _ => false) k
        (sortedIds_nodup row) hk hf
      rw [Nat.zero_add] at h0
      exact ⟨fun h => (h0.1 h), fun h => (h0.2 h)⟩

/-- Witness for C3_alternation_by_sorted_position: the row (1/2, 0, 0) with nothing
forbidden; the median at sorted position 0 is forbidden in the left child only. -/
theorem C3_witness :
    (performBranchingArrays (fun _ _ => false) 0 (sortedIds ([1/2, 0, 0] : List ℚ))).1
      ((sortedIds ([1/2, 0, 0] : List ℚ)).getD 0 0) = true ∧
    (performBranchingArrays (fun _ _ => false) 0 (sortedIds ([1/2, 0, 0] : List ℚ))).2
      ((sortedIds ([1/2, 0, 0] : List ℚ)).getD 0 0) = false :=
  (((C3_alternation_by_sorted_position ([1/2, 0, 0] : List ℚ) (fun _ _ => false) 0).2 0
    (by rw [sortedIds_length]; decide)).2 rfl).1 rfl

lemma feastol_pos : 0 < feastol := by norm_num [feastol]

lemma isFeasLT_irrefl (x : ℚ) : ¬ isFeasLT x x := by
  unfold isFeasLT
  intro h
  have := feastol_pos
  linarith

lemma isFeasLT_asymm {x y : ℚ} (h : isFeasLT x y) : ¬ isFeasLT y x := by
  unfold isFeasLT at *
  intro h2
  have := feastol_pos
  linarith

lemma isFeasLT_trans {x y z : ℚ} (h1 : isFeasLT x y) (h2 : isFeasLT y z) : isFeasLT x z := by
  unfold isFeasLT at *
  have := feastol_pos
  linarith

lemma intOfNat_ne_neg_one (i : ℕ) : Int.ofNat i ≠ -1 := by
  intro h
  have h0 : (0 : ℤ) ≤ Int.ofNat i := Int.ofNat_nonneg i
  rw [h] at h0
  norm_num at h0

lemma chooseLoop_maxn_le :
    ∀ (rs : List (List ℚ)) (i : ℕ) (loc : ℤ) (maxn : ℕ) (mind : ℚ),
      maxn ≤ (chooseLoop rs i loc maxn mind).2.1 := by
  intro rs
  induction rs with
  | nil => intro i loc maxn mind; exact le_refl maxn
  | cons a rest ih =>
    intro i loc maxn mind
    unfold chooseLoop
    by_cases hc : rowNfrac a > maxn ∨
        (rowNfrac a > 0 ∧ rowNfrac a = maxn ∧ isFeasLT (rowFracDiff a) mind)
    · rw [if_pos hc]
      have hle : maxn ≤ rowNfrac a := by
        rcases hc with h | ⟨_, h, _⟩
        · exact le_of_lt h
        · omega
      exact hle.trans (ih (i + 1) (Int.ofNat i) (rowNfrac a) (rowFracDiff a))
    · rw [if_neg hc]
      exact ih (i + 1) loc maxn mind

lemma chooseLoop_row_le :
    ∀ (rs : List (List ℚ)) (i : ℕ) (loc : ℤ) (maxn : ℕ) (mind : ℚ),
      ∀ row ∈ rs, rowNfrac row ≤ (chooseLoop rs i loc maxn mind).2.1 := by
  intro rs
  induction rs with
  | nil => intro i loc maxn mind row hrow; exact absurd hrow (List.not_mem_nil row)
  | cons a rest ih =>
    intro i loc maxn mind row hrow
    unfold chooseLoop
    by_cases hc : rowNfrac a > maxn ∨
        (rowNfrac a > 0 ∧ rowNfrac a = maxn ∧ isFeasLT (rowFracDiff a) mind)
    · rw [if_pos hc]
      rcases List.mem_cons.mp hrow with heq | hr
      · subst heq
        exact chooseLoop_maxn_le rest (i + 1) (Int.ofNat i) (rowNfrac row) (rowFracDiff row)
      · exact ih (i + 1) (Int.ofNat i) (rowNfrac a) (rowFracDiff a) row hr
    · rw [if_neg hc]
      rcases List.mem_cons.mp hrow with heq | hr
      · subst heq
        have hle : rowNfrac row ≤ maxn := by
          have h1 := (not_or.mp hc).1
          omega
        exact hle.trans (chooseLoop_maxn_le rest (i + 1) loc maxn mind)
      · exact ih (i + 1) loc maxn mind row hr

lemma chooseLoop_loc_stable :
    ∀ (rs : List (List ℚ)) (i : ℕ) (loc : ℤ) (maxn : ℕ) (mind : ℚ),
      loc ≠ -1 → (chooseLoop rs i loc maxn mind).1 ≠ -1 := by
  intro rs
  induction rs with
  | nil => intro i loc maxn mind h; exact h
  | cons a rest ih =>
    intro i loc maxn mind h
    unfold chooseLoop
    by_cases hc : rowNfrac a > maxn ∨
        (rowNfrac a > 0 ∧ rowNfrac a = maxn ∧ isFeasLT (rowFracDiff a) mind)
    · rw [if_pos hc]
      exact ih (i + 1) (Int.ofNat i) (rowNfrac a) (rowFracDiff a) (intOfNat_ne_neg_one i)
    · rw [if_neg hc]
      exact ih (i + 1) loc maxn mind h

lemma chooseLoop_all_integral :
    ∀ (rs : List (List ℚ)) (i : ℕ) (loc : ℤ) (maxn : ℕ) (mind : ℚ),
      (∀ row ∈ rs, rowNfrac row = 0) →
      chooseLoop rs i loc maxn mind = (loc, maxn, mind) := by
  intro rs
  induction rs with
  | nil => intro i loc maxn mind _; rfl
  | cons a rest ih =>
    intro i loc maxn mind h
    have ha : rowNfrac a = 0 := h a (List.mem_cons_self a rest)
    unfold chooseLoop
    have hc : ¬ (rowNfrac a > maxn ∨
        (rowNfrac a > 0 ∧ rowNfrac a = maxn ∧ isFeasLT (rowFracDiff a) mind)) := by
      rintro (h1 | ⟨h2, _, _⟩)
      · omega
      · omega
    rw [if_neg hc]
    exact ih (i + 1) loc maxn mind (fun row hr => h row (List.mem_cons_of_mem a hr))

lemma chooseLoop_some_frac :
    ∀ (rs : List (List ℚ)) (i : ℕ) (loc : ℤ) (maxn : ℕ) (mind : ℚ),
      (0 < maxn → loc ≠ -1) → (∃ row ∈ rs, 0 < rowNfrac row) →
      (chooseLoop rs i loc maxn mind).1 ≠ -1 := by
  intro rs
  induction rs with
  | nil =>
    intro i loc maxn mind _ hex
    rcases hex with ⟨row, hmem, _⟩
    exact absurd hmem (List.not_mem_nil row)
  | cons a rest ih =>
    intro i loc maxn mind hinv hex
    unfold chooseLoop
    by_cases hc : rowNfrac a > maxn ∨
        (rowNfrac a > 0 ∧ rowNfrac a = maxn ∧ isFeasLT (rowFracDiff a) mind)
    · rw [if_pos hc]
      exact chooseLoop_loc_stable rest (i + 1) (Int.ofNat i) (rowNfrac a) (rowFracDiff a)
        (intOfNat_ne_neg_one i)
    · rw [if_neg hc]
      rcases hex with ⟨row, hmem, hpos⟩
      rcases List.mem_cons.mp hmem with heq | hr
      · subst heq
        have h1 := (not_or.mp hc).1
        have hm : 0 < maxn := by omega
        exact chooseLoop_loc_stable rest (i + 1) loc maxn mind (hinv hm)
      · exact ih (i + 1) loc maxn mind hinv ⟨row, hr, hpos⟩

lemma chooseLoop_final :
    ∀ (rs : List (List ℚ)) (i : ℕ) (loc : ℤ) (maxn : ℕ) (mind : ℚ),
      ((chooseLoop rs i loc maxn mind).1 = loc ∧
        (chooseLoop rs i loc maxn mind).2.1 = maxn ∧
        (chooseLoop rs i loc maxn mind).2.2 = mind) ∨
      ∃ k, k < rs.length ∧ (chooseLoop rs i loc maxn mind).1 = Int.ofNat (i + k) ∧
        rowNfrac (rs.getD k []) = (chooseLoop rs i loc maxn mind).2.1 ∧
        (chooseLoop rs i loc maxn mind).2.2 = rowFracDiff (rs.getD k []) ∧
        0 < (chooseLoop rs i loc maxn mind).2.1 := by
  intro rs
  induction rs with
  | nil => intro i loc maxn mind; exact Or.inl ⟨rfl, rfl, rfl⟩
  | cons a rest ih =>
    intro i loc maxn mind
    unfold chooseLoop
    by_cases hc : rowNfrac a > maxn ∨
        (rowNfrac a > 0 ∧ rowNfrac a = maxn ∧ isFeasLT (rowFracDiff a) mind)
    · rw [if_pos hc]
      have hpos : 0 < rowNfrac a := by
        rcases hc with h | ⟨h, _, _⟩
        · omega
        · exact h
      rcases ih (i + 1) (Int.ofNat i) (rowNfrac a) (rowFracDiff a) with ⟨h1, h2, h3⟩ | hk
      · refine Or.inr ⟨0, ?_, ?_, ?_, ?_, ?_⟩
        · simp
        · rw [h1, Nat.add_zero]
        · rw [h2]; rfl
        · rw [h3]; rfl
        · rw [h2]; exact hpos
      · rcases hk with ⟨k, hklen, hloc, hnf, hmind, hmx⟩
        refine Or.inr ⟨k + 1, ?_, ?_, ?_, ?_, ?_⟩
        · simp only [List.length_cons]; omega
        · rw [hloc]; congr 1; omega
        · simpa using hnf
        · simpa using hmind
        · exact hmx
    · rw [if_neg hc]
      rcases ih (i + 1) loc maxn mind with h | hk
      · exact Or.inl h
      · rcases hk with ⟨k, hklen, hloc, hnf, hmind, hmx⟩
        refine Or.inr ⟨k + 1, ?_, ?_, ?_, ?_, ?_⟩
        · simp only [List.length_cons]; omega
        · rw [hloc]; congr 1; omega
        · simpa using hnf
        · simpa using hmind
        · exact hmx

lemma chooseLoop_mind :
    ∀ (rs : List (List ℚ)) (i : ℕ) (loc : ℤ) (maxn : ℕ) (mind : ℚ),
      (chooseLoop rs i loc maxn mind).2.1 = maxn →
      ((chooseLoop rs i loc maxn mind).2.2 = mind ∨
        isFeasLT ((chooseLoop rs i loc maxn mind).2.2) mind) := by
  intro rs
  induction rs with
  | nil => intro i loc maxn mind _; exact Or.inl rfl
  | cons a rest ih =>
    intro i loc maxn mind hmx
    unfold chooseLoop at hmx ⊢
    by_cases hc : rowNfrac a > maxn ∨
        (rowNfrac a > 0 ∧ rowNfrac a = maxn ∧ isFeasLT (rowFracDiff a) mind)
    · rw [if_pos hc] at hmx ⊢
      rcases hc with h | ⟨_, heq, hlt⟩
      · have hle := chooseLoop_maxn_le rest (i + 1) (Int.ofNat i) (rowNfrac a) (rowFracDiff a)
        rw [hmx] at hle
        omega
      · have := ih (i + 1) (Int.ofNat i) (rowNfrac a) (rowFracDiff a) (heq ▸ hmx)
        rcases this with h2 | h2
        · right
          rw [h2]
          exact hlt
        · exact Or.inr (isFeasLT_trans h2 hlt)
    · rw [if_neg hc] at hmx ⊢
      exact ih (i + 1) loc maxn mind hmx

lemma chooseLoop_minimal :
    ∀ (rs : List (List ℚ)) (i : ℕ) (loc : ℤ) (maxn : ℕ) (mind : ℚ) (k : ℕ),
      k < rs.length →
      0 < (chooseLoop rs i loc maxn mind).2.1 →
      rowNfrac (rs.getD k []) = (chooseLoop rs i loc maxn mind).2.1 →
      ¬ isFeasLT (rowFracDiff (rs.getD k [])) ((chooseLoop rs i loc maxn mind).2.2) := by
  intro rs
  induction rs with
  | nil => intro i loc maxn mind k hk; exact absurd hk (Nat.not_lt_zero k)
  | cons a rest ih =>
    intro i loc maxn mind k hk hpos hnf
    cases k with
    | zero =>
      simp only [List.getD_cons_zero] at hnf ⊢
      unfold chooseLoop at hnf hpos ⊢
      by_cases hc : rowNfrac a > maxn ∨
          (rowNfrac a > 0 ∧ rowNfrac a = maxn ∧ isFeasLT (rowFracDiff a) mind)
      · rw [if_pos hc] at hnf hpos ⊢
        have hmind := chooseLoop_mind rest (i + 1) (Int.ofNat i) (rowNfrac a)
          (rowFracDiff a) hnf.symm
        rcases hmind with h2 | h2
        · rw [h2]
          exact isFeasLT_irrefl (rowFracDiff a)
        · exact isFeasLT_asymm h2
      · rw [if_neg hc] at hnf hpos ⊢
        have hle := chooseLoop_maxn_le rest (i + 1) loc maxn mind
        have h1 := (not_or.mp hc).1
        have heqm : rowNfrac a = maxn := by omega
        have h2 := (not_or.mp hc).2
        have hnlt : ¬ isFeasLT (rowFracDiff a) mind := by
          intro hl
          exact h2 ⟨by omega, heqm, hl⟩
        have hmind := chooseLoop_mind rest (i + 1) loc maxn mind (by omega)
        rcases hmind with h3 | h3
        · rw [h3]
          exact hnlt
        · intro hl
          exact hnlt (isFeasLT_trans hl h3)
    | succ k =>
      simp only [List.getD_cons_succ] at hnf ⊢
      unfold chooseLoop at hnf hpos ⊢
      have hklen : k < rest.length := by
        simp only [List.length_cons] at hk
        omega
      by_cases hc : rowNfrac a > maxn ∨
          (rowNfrac a > 0 ∧ rowNfrac a = maxn ∧ isFeasLT (rowFracDiff a) mind)
      · rw [if_pos hc] at hnf hpos ⊢
        exact ih (i + 1) (Int.ofNat i) (rowNfrac a) (rowFracDiff a) k hklen hpos hnf
      · rw [if_neg hc] at hnf hpos ⊢
        exact ih (i + 1) loc maxn mind k hklen hpos hnf

lemma rowStatsLoop_nfrac :
    ∀ (xs : List ℚ) (idx nf : ℕ) (t h : ℚ),
      (rowStatsLoop xs idx nf t h).1 = nf + xs.countP (fun x => decide (¬ isFeasIntegral x)) := by
  intro xs
  induction xs with
  | nil => intro idx nf t h; simp [rowStatsLoop]
  | cons x rest ih =>
    intro idx nf t h
    unfold rowStatsLoop
    by_cases hx : ¬ isFeasIntegral x
    · rw [if_pos hx, ih]
      rw [List.countP_cons_of_pos _ _ (by simpa using hx)]
      omega
    · rw [if_neg hx, ih]
      rw [List.countP_cons_of_neg _ _ (by simpa using hx)]

lemma rowNfrac_countP (row : List ℚ) :
    rowNfrac row = row.countP (fun x => decide (¬ isFeasIntegral x)) := by
  unfold rowNfrac
  rw [rowStatsLoop_nfrac]
  omega

lemma rowNfrac_sortedVals (row : List ℚ) : rowNfrac (sortedVals row) = rowNfrac row := by
  rw [rowNfrac_countP, rowNfrac_countP]
  exact (sortedVals_perm row).countP_eq _

lemma rowNfrac_pos_frac (row : List ℚ) (h : 0 < rowNfrac row) :
    ∃ x ∈ row, ¬ isFeasIntegral x := by
  rw [rowNfrac_countP] at h
  obtain ⟨x, hx, hp⟩ := List.countP_pos.mp h
  exact ⟨x, hx, of_decide_eq_true hp⟩

lemma rowNfrac_zero_iff (A : ℕ → ℕ → ℚ) (n i : ℕ) :
    rowNfrac (assignRow A n i) = 0 ↔ ∀ j, j < n → isFeasIntegral (A i j) := by
  rw [rowNfrac_countP, List.countP_eq_zero]
  constructor
  · intro h j hj
    have hmem : A i j ∈ assignRow A n i := by
      simp only [assignRow, List.mem_map]
      exact ⟨j, List.mem_range.mpr hj, rfl⟩
    have := h (A i j) hmem
    simpa using this
  · intro h x hx
    simp only [assignRow, List.mem_map] at hx
    obtain ⟨j, hj, rfl⟩ := hx
    simpa using h j (List.mem_range.mp hj)

lemma sortedRows_length (A : ℕ → ℕ → ℚ) (n : ℕ) : (sortedRows A n).length = n := by
  simp [sortedRows]

lemma sortedRows_getD (A : ℕ → ℕ → ℚ) (n j : ℕ) (hj : j < n) :
    (sortedRows A n).getD j [] = sortedVals (assignRow A n j) := by
  rw [List.getD_eq_getElem _ _ (by rw [sortedRows_length]; exact hj)]
  simp [sortedRows]

lemma chooseLocation_neg_one_iff (A : ℕ → ℕ → ℚ) (n : ℕ) :
    chooseLocation (sortedRows A n) = -1 ↔ ∀ i, i < n → ∀ j, j < n → isFeasIntegral (A i j) := by
  constructor
  · intro h
    by_contra hcon
    push_neg at hcon
    obtain ⟨i, hi, j, hj, hfrac⟩ := hcon
    have hpos : 0 < rowNfrac (sortedVals (assignRow A n i)) := by
      rw [rowNfrac_sortedVals]
      by_contra h0
      push_neg at h0
      have h00 : rowNfrac (assignRow A n i) = 0 := by omega
      exact hfrac ((rowNfrac_zero_iff A n i).mp h00 j hj)
    have hne := chooseLoop_some_frac (sortedRows A n) 0 (-1) 0 scipInfinity
      (fun hc => absurd hc (lt_irrefl 0))
      ⟨sortedVals (assignRow A n i), by
        simp only [sortedRows, List.mem_map]
        exact ⟨i, List.mem_range.mpr hi, rfl⟩, hpos⟩
    exact hne h
  · intro h
    unfold chooseLocation
    rw [chooseLoop_all_integral]
    · intro row hrow
      simp only [sortedRows, List.mem_map] at hrow
      obtain ⟨i, hi, rfl⟩ := hrow
      rw [rowNfrac_sortedVals]
      exact (rowNfrac_zero_iff A n i).mpr (fun j hj => h i (List.mem_range.mp hi) j hj)

/-- Claim C9: when the current LP solution has no fractional location-median
assignment, chooseLocation returns -1, the branching callback reports SCIP_DIDNOTFIND
and creates no child node; otherwise it reports SCIP_BRANCHED and creates exactly two
child nodes. -/
theorem C9_branch_dispatch (vars : List MasterVarData) (n : ℕ) (R : ℕ → ℕ → Bool) :
    ((∀ i, i < n → ∀ j, j < n → isFeasIntegral (computeAssignments vars i j)) →
      chooseLocation (sortedRows (computeAssignments vars) n) = -1 ∧
      (branchExeclpSemiassign vars n R).1 = SResult.didnotfind ∧
      (branchExeclpSemiassign vars n R).2.length = 0) ∧
    ((¬ ∀ i, i < n → ∀ j, j < n → isFeasIntegral (computeAssignments vars i j)) →
      chooseLocation (sortedRows (computeAssignments vars) n) ≠ -1 ∧
      (branchExeclpSemiassign vars n R).1 = SResult.branched ∧
      (branchExeclpSemiassign vars n R).2.length = 2) := by
  constructor
  · intro h
    have hloc := (chooseLocation_neg_one_iff (computeAssignments vars) n).mpr h
    refine ⟨hloc, ?_, ?_⟩
    · unfold branchExeclpSemiassign
      rw [if_pos hloc]
    · unfold branchExeclpSemiassign
      rw [if_pos hloc]
      rfl
  · intro h
    have hloc : chooseLocation (sortedRows (computeAssignments vars) n) ≠ -1 :=
      fun hc => h ((chooseLocation_neg_one_iff (computeAssignments vars) n).mp hc)
    refine ⟨hloc, ?_, ?_⟩
    · unfold branchExeclpSemiassign
      rw [if_neg hloc]
    · unfold branchExeclpSemiassign
      rw [if_neg hloc]
      rfl

/-- Witness for C9_branch_dispatch: with no master variable the assignment matrix is
identically zero, hence integral; the callback reports SCIP_DIDNOTFIND and creates no
children. -/
theorem C9_witness :
    chooseLocation (sortedRows (computeAssignments []) 1) = -1 ∧
    (branchExeclpSemiassign [] 1 (fun _ _ => false)).1 = SResult.didnotfind ∧
    (branchExeclpSemiassign [] 1 (fun _ _ => false)).2.length = 0 :=
  (C9_branch_dispatch [] 1 (fun _ _ => false)).1 (by
    intro i _ j _
    show isFeasIntegral ((fun _ _ => (0 : ℚ)) i j)
    unfold isFeasIntegral feastol
    norm_num)

lemma getD_mem_of_lt {α : Type} (l : List α) (d : α) (j : ℕ) (hj : j < l.length) :
    l.getD j d ∈ l := by
  rw [List.getD_eq_getElem _ _ hj]
  exact List.getElem_mem hj

/-- Claim C4 (amended): when chooseLocation picks location k on the rows that
branchExeclpSemiassign passes to it (every row already sorted in place by sortMedians),
k maximises the number of fractionally assigned medians, and among the locations
attaining that maximum no other location has a tie-break value
ABS(halffrac - 0.5 * totfrac) feasibly smaller than the one of k, where halffrac is
accumulated over the even positions of the value-sorted row rather than over even
original median indices. -/
theorem C4_location_selection (A : ℕ → ℕ → ℚ) (n k : ℕ)
    (h : chooseLocation (sortedRows A n) = Int.ofNat k) :
    k < n ∧
    (∀ j, j < n →
      rowNfrac ((sortedRows A n).getD j []) ≤ rowNfrac ((sortedRows A n).getD k [])) ∧
    (∀ j, j < n →
      rowNfrac ((sortedRows A n).getD j []) = rowNfrac ((sortedRows A n).getD k []) →
      ¬ isFeasLT (rowFracDiff ((sortedRows A n).getD j []))
        (rowFracDiff ((sortedRows A n).getD k []))) := by
  have hlen : (sortedRows A n).length = n := sortedRows_length A n
  rcases chooseLoop_final (sortedRows A n) 0 (-1) 0 scipInfinity with
    ⟨h1, _, _⟩ | ⟨k2, hk2, hloc, hnf, hmind, hpos⟩
  · rw [chooseLocation, h1] at h
    exact absurd h.symm (intOfNat_ne_neg_one k)
  · rw [chooseLocation, hloc] at h
    have hkk : k2 = k := by
      have := Int.ofNat_inj.mp h
      omega
    subst hkk
    refine ⟨by omega, ?_, ?_⟩
    · intro j hj
      have hmem : (sortedRows A n).getD j [] ∈ sortedRows A n :=
        getD_mem_of_lt _ _ j (by omega)
      have := chooseLoop_row_le (sortedRows A n) 0 (-1) 0 scipInfinity _ hmem
      rw [← hnf] at this
      exact this
    · intro j hj heq
      have := chooseLoop_minimal (sortedRows A n) 0 (-1) 0 scipInfinity j (by omega)
        hpos (by rw [heq, hnf])
      rw [hmind] at this
      exact this

lemma not_integral_gt_feastol {x : ℚ} (hx : 0 ≤ x) (h : ¬ isFeasIntegral x) : feastol < x := by
  unfold isFeasIntegral at h
  push_neg at h
  have hfl : (0 : ℤ) ≤ ⌊x + feastol⌋ := by
    apply Int.le_floor.mpr
    push_cast
    have := feastol_pos
    linarith
  have hq : (0 : ℚ) ≤ (⌊x + feastol⌋ : ℚ) := by exact_mod_cast hfl
  linarith

lemma near_integral_ge {x : ℚ} (hx : 0 ≤ x) (hnz : ¬ isFeasZero x) (hint : isFeasIntegral x) :
    1 - feastol ≤ x := by
  unfold isFeasIntegral at hint
  unfold isFeasZero at hnz
  rw [abs_of_nonneg hx] at hnz
  push_neg at hnz
  have hfloor_le : (⌊x + feastol⌋ : ℚ) ≤ x + feastol := Int.floor_le (x + feastol)
  have hc1 : (1 : ℤ) ≤ ⌊x + feastol⌋ := by
    by_contra hcon
    push_neg at hcon
    have hle0 : ⌊x + feastol⌋ ≤ 0 := by omega
    have hq : (⌊x + feastol⌋ : ℚ) ≤ 0 := by exact_mod_cast hle0
    linarith
  have hq1 : (1 : ℚ) ≤ (⌊x + feastol⌋ : ℚ) := by exact_mod_cast hc1
  linarith

lemma two_mem_sum_le {l : List ℚ} {x y : ℚ} (hx : x ∈ l) (hy : y ∈ l) (hne : y ≠ x)
    (hnn : ∀ z ∈ l, 0 ≤ z) : x + y ≤ l.sum := by
  have hperm := List.perm_cons_erase hx
  have hsum : l.sum = x + (l.erase x).sum := by
    rw [List.Perm.sum_eq hperm, List.sum_cons]
  have hy2 : y ∈ l.erase x := (List.mem_erase_of_ne hne).mpr hy
  have hperm2 := List.perm_cons_erase hy2
  have hsum2 : (l.erase x).sum = y + ((l.erase x).erase y).sum := by
    rw [List.Perm.sum_eq hperm2, List.sum_cons]
  have hnn2 : 0 ≤ ((l.erase x).erase y).sum := by
    apply List.sum_nonneg
    intro z hz
    exact hnn z (List.mem_of_mem_erase (List.mem_of_mem_erase hz))
  linarith

/-- Claim C10 (amended): when chooseLocation returns location k and the sorted
assignment row of k consists of nonnegative values with total mass at most 1, the
assertion of performBranching holds on that row: every entry is feasibly zero or not
feasibly integral. With over-coverage (total mass above 1, which the lower-bounded
coverage rows allow) the assertion can fail. -/
theorem C10_branch_assert (rows : List (List ℚ)) (k : ℕ)
    (h : chooseLocation rows = Int.ofNat k)
    (hnn : ∀ x ∈ rows.getD k [], 0 ≤ x)
    (hsum : (rows.getD k []).sum ≤ 1) :
    branchAssertHolds (rows.getD k []) := by
  rcases chooseLoop_final rows 0 (-1) 0 scipInfinity with
    ⟨h1, _, _⟩ | ⟨k2, hk2, hloc, hnf, hmind, hpos⟩
  · rw [chooseLocation, h1] at h
    exact absurd h.symm (intOfNat_ne_neg_one k)
  · rw [chooseLocation, hloc] at h
    have hkk : k2 = k := by
      have := Int.ofNat_inj.mp h
      omega
    subst hkk
    have hfr : 0 < rowNfrac (rows.getD k2 []) := by
      rw [hnf]
      exact hpos
    obtain ⟨x0, hx0mem, hx0⟩ := rowNfrac_pos_frac _ hfr
    intro x hx
    by_contra hcon
    push_neg at hcon
    obtain ⟨hint, hnz⟩ := hcon
    have h1x : 1 - feastol ≤ x := near_integral_ge (hnn x hx) hnz hint
    have h2x : feastol < x0 := not_integral_gt_feastol (hnn x0 hx0mem) hx0
    have hne : x0 ≠ x := fun he => hx0 (he ▸ hint)
    have hle := two_mem_sum_le hx hx0mem hne hnn
    linarith

lemma range3 : List.range 3 = [0, 1, 2] := by decide

lemma nf_A4r0 : rowNfrac [1/2, 3/10, 1/10] = 3 := by
  unfold rowNfrac
  norm_num [rowStatsLoop, isFeasIntegral, feastol]

lemma nf_A4r1 : rowNfrac [1/2, 3/10, 1/5] = 3 := by
  unfold rowNfrac
  norm_num [rowStatsLoop, isFeasIntegral, feastol]

lemma nf_zero3 : rowNfrac ([0, 0, 0] : List ℚ) = 0 := by
  unfold rowNfrac
  norm_num [rowStatsLoop, isFeasIntegral, feastol]

lemma d_A4r0 : rowFracDiff [1/2, 3/10, 1/10] = 3/20 := by
  unfold rowFracDiff
  norm_num [rowStatsLoop, isFeasIntegral, feastol]

lemma d_A4r1 : rowFracDiff [1/2, 3/10, 1/5] = 1/5 := by
  unfold rowFracDiff
  norm_num [rowStatsLoop, isFeasIntegral, feastol]

lemma nf_C10r0 : rowNfrac [1, 1/2, 1/2] = 2 := by
  unfold rowNfrac
  norm_num [rowStatsLoop, isFeasIntegral, feastol]

lemma nf_C10w0 : rowNfrac [1/2, 1/2, 0] = 2 := by
  unfold rowNfrac
  norm_num [rowStatsLoop, isFeasIntegral, feastol]

lemma nf_C3r0 : rowNfrac [1/2, 0, 0] = 1 := by
  unfold rowNfrac
  norm_num [rowStatsLoop, isFeasIntegral, feastol]

lemma sv_A4r0 : sortedVals [1/10, 3/10, 1/2] = [1/2, 3/10, 1/10] := by
  unfold sortedVals sortMedians enumIdx
  norm_num [List.insertionSort, List.orderedInsert, medOrder]

lemma sv_A4r1 : sortedVals [1/5, 1/2, 3/10] = [1/2, 3/10, 1/5] := by
  unfold sortedVals sortMedians enumIdx
  norm_num [List.insertionSort, List.orderedInsert, medOrder]

lemma sv_zero3 : sortedVals ([0, 0, 0] : List ℚ) = [0, 0, 0] := by
  unfold sortedVals sortMedians enumIdx
  norm_num [List.insertionSort, List.orderedInsert, medOrder]

lemma sv_C3r0 : sortedVals [1/2, 0, 0] = [1/2, 0, 0] := by
  unfold sortedVals sortMedians enumIdx
  norm_num [List.insertionSort, List.orderedInsert, medOrder]

lemma si_C3r0 : sortedIds [1/2, 0, 0] = [0, 1, 2] := by
  unfold sortedIds sortMedians enumIdx
  norm_num [List.insertionSort, List.orderedInsert, medOrder]

lemma ar_A4_0 : assignRow A4mat 3 0 = [1/10, 3/10, 1/2] := by
  unfold assignRow A4mat
  rw [range3]
  norm_num

lemma ar_A4_1 : assignRow A4mat 3 1 = [1/5, 1/2, 3/10] := by
  unfold assignRow A4mat
  rw [range3]
  norm_num

lemma ar_A4_2 : assignRow A4mat 3 2 = [0, 0, 0] := by
  unfold assignRow A4mat
  rw [range3]
  norm_num

lemma sortedRows_A4 :
    sortedRows A4mat 3 = [[1/2, 3/10, 1/10], [1/2, 3/10, 1/5], [0, 0, 0]] := by
  unfold sortedRows
  rw [range3]
  simp only [List.map_cons, List.map_nil]
  rw [ar_A4_0, ar_A4_1, ar_A4_2, sv_A4r0, sv_A4r1, sv_zero3]

lemma choose_A4 : chooseLocation (sortedRows A4mat 3) = Int.ofNat 0 := by
  rw [sortedRows_A4]
  unfold chooseLocation
  norm_num [chooseLoop, nf_A4r0, nf_A4r1, nf_zero3, d_A4r0, d_A4r1, isFeasLT, feastol,
    scipInfinity]

lemma cn_A4_0 : claimNfrac A4mat 3 0 = 3 := by
  unfold claimNfrac A4mat
  rw [range3]
  norm_num [isFeasIntegral, feastol]

lemma cn_A4_1 : claimNfrac A4mat 3 1 = 3 := by
  unfold claimNfrac A4mat
  rw [range3]
  norm_num [isFeasIntegral, feastol]

lemma cn_A4_2 : claimNfrac A4mat 3 2 = 0 := by
  unfold claimNfrac A4mat
  rw [range3]
  norm_num [isFeasIntegral, feastol]

lemma cd_A4_0 : claimFracDiff A4mat 3 0 = 3/20 := by
  unfold claimFracDiff claimHalffrac claimTotfrac A4mat
  rw [range3]
  norm_num [isFeasIntegral, feastol]

lemma cd_A4_1 : claimFracDiff A4mat 3 1 = 0 := by
  unfold claimFracDiff claimHalffrac claimTotfrac A4mat
  rw [range3]
  norm_num [isFeasIntegral, feastol]

/-- Claim C4 counterexample: on the assignment matrix A4mat the branching rule selects
location 0, yet locations 0 and 1 both attain the maximal fractional count 3 and
location 1 has the strictly smaller value of |halffrac - 0.5 * totfrac| when halffrac
is computed, as the claim states, over even-indexed medians of the unsorted assignment
matrix; so the selected location is not a minimiser among the maximisers. -/
theorem C4_counterexample :
    chooseLocation (sortedRows A4mat 3) = Int.ofNat 0 ∧
    claimNfrac A4mat 3 0 = 3 ∧ claimNfrac A4mat 3 1 = 3 ∧ claimNfrac A4mat 3 2 = 0 ∧
    claimFracDiff A4mat 3 1 < claimFracDiff A4mat 3 0 :=
  ⟨choose_A4, cn_A4_0, cn_A4_1, cn_A4_2, by rw [cd_A4_0, cd_A4_1]; norm_num⟩

/-- Witness for C4_location_selection at the concrete matrix A4mat, where location 0 is
selected: location 1 does not exceed its fractional count. -/
theorem C4_witness :
    rowNfrac ((sortedRows A4mat 3).getD 1 []) ≤ rowNfrac ((sortedRows A4mat 3).getD 0 []) :=
  (C4_location_selection A4mat 3 0 choose_A4).2.1 1 (by norm_num)

lemma choose_C10 : chooseLocation rowsC10 = Int.ofNat 0 := by
  unfold rowsC10 chooseLocation
  norm_num [chooseLoop, nf_C10r0, nf_zero3]

/-- Claim C10 counterexample: on the sorted rows with first row (1, 1/2, 1/2) (an
LP-feasible situation, since the coverage rows only bound the assignment mass from
below) chooseLocation selects location 0, yet the entry 1 of the selected row is
feasibly integral and not feasibly zero, so the assertion of performBranching fails. -/
theorem C10_counterexample :
    chooseLocation rowsC10 = Int.ofNat 0 ∧ ¬ branchAssertHolds (rowsC10.getD 0 []) := by
  refine ⟨choose_C10, ?_⟩
  intro h
  have h1 : (1 : ℚ) ∈ rowsC10.getD 0 [] := by
    unfold rowsC10
    simp
  have := h 1 h1
  rcases this with hni | hz
  · apply hni
    unfold isFeasIntegral feastol
    norm_num
  · unfold isFeasZero feastol at hz
    norm_num at hz

lemma choose_C10w : chooseLocation rowsC10w = Int.ofNat 0 := by
  unfold rowsC10w chooseLocation
  norm_num [chooseLoop, nf_C10w0, nf_zero3]

/-- Witness for C10_branch_assert: the sorted rows with purely fractional first row
(1/2, 1/2, 0) of mass 1; chooseLocation selects location 0 and the assertion holds. -/
theorem C10_witness : branchAssertHolds (rowsC10w.getD 0 []) :=
  C10_branch_assert rowsC10w 0 choose_C10w
    (by
      intro x hx
      unfold rowsC10w at hx
      simp only [List.getD_cons_zero] at hx
      rcases List.mem_cons.mp hx with rfl | hx2
      · norm_num
      · rcases List.mem_cons.mp hx2 with rfl | hx3
        · norm_num
        · rcases List.mem_cons.mp hx3 with rfl | hx4
          · norm_num
          · exact absurd hx4 (List.not_mem_nil x))
    (by
      unfold rowsC10w
      simp only [List.getD_cons_zero]
      norm_num)

lemma ar_C3_0 : assignRow (computeAssignments varsC3) 3 0 = [1/2, 0, 0] := by
  unfold assignRow computeAssignments varsC3
  rw [range3]
  norm_num [update2]

lemma ar_C3_1 : assignRow (computeAssignments varsC3) 3 1 = [0, 0, 0] := by
  unfold assignRow computeAssignments varsC3
  rw [range3]
  norm_num [update2]

lemma ar_C3_2 : assignRow (computeAssignments varsC3) 3 2 = [0, 0, 0] := by
  unfold assignRow computeAssignments varsC3
  rw [range3]
  norm_num [update2]

lemma sortedRows_C3 :
    sortedRows (computeAssignments varsC3) 3 = [[1/2, 0, 0], [0, 0, 0], [0, 0, 0]] := by
  unfold sortedRows
  rw [range3]
  simp only [List.map_cons, List.map_nil]
  rw [ar_C3_0, ar_C3_1, ar_C3_2, sv_C3r0, sv_zero3]

lemma choose_C3 : chooseLocation (sortedRows (computeAssignments varsC3) 3) = Int.ofNat 0 := by
  rw [sortedRows_C3]
  unfold chooseLocation
  norm_num [chooseLoop, nf_C3r0, nf_zero3]

lemma branchExec_C3 :
    (branchExeclpSemiassign varsC3 3 RC3).2 = performBranching RC3 0 [0, 1, 2] := by
  unfold branchExeclpSemiassign
  rw [choose_C3]
  rw [if_neg (by decide : ¬ (Int.ofNat 0 = -1))]
  have ht : (Int.ofNat 0).toNat = 0 := rfl
  rw [ht, ar_C3_0, si_C3r0]

/-- Claim C3 counterexample: branching on location 0 with median 1 already forbidden
(assignment row (1/2, 0, 0), sorted ids (0, 1, 2)), the program forbids both remaining
candidates, medians 0 and 2, in the LEFT child (both sit at even sorted positions 0 and
2 once the skipped forbidden median 1 is counted), while the claim as stated demands
that the second remaining candidate, median 2, be forbidden in the right child. -/
theorem C3_counterexample :
    ((branchExeclpSemiassign varsC3 3 RC3).2.getD 1 cdDefault).forbidden 2 = false ∧
    ((branchExeclpSemiassign varsC3 3 RC3).2.getD 0 cdDefault).forbidden 2 = true ∧
    RC3 2 0 = false ∧ RC3 1 0 = true ∧
    (claimFill RC3 0 [0, 1, 2]).2 2 = true ∧ (claimFill RC3 0 [0, 1, 2]).1 2 = false := by
  refine ⟨?_, ?_, by decide, by decide, by decide, by decide⟩
  · rw [branchExec_C3]
    decide
  · rw [branchExec_C3]
    decide
